import Mathlib

/-!
Shallow embedding of `src/lib.rs` of the `bevy-export-jsonschema` crate and
proofs about it.

Modelling conventions:

* `serde_json::Value` is the inductive `Json` below.  The crate is compiled
  against `serde_json` with its default `Map` backend, a `BTreeMap`, so JSON
  objects keep their keys strictly sorted and a later insertion of an existing
  key overwrites the earlier binding.  Objects are therefore represented as
  association lists that `insertKey` keeps strictly sorted by key.
* Rust `HashMap` iteration order is unspecified.  The two places the source
  collects into a `HashMap` before converting to a `Value` (struct
  `properties`, struct-variant `properties`) are parameterised by a
  reordering function `h`; the faithful export is `export_type_h h` for an
  arbitrary permutation-producing `h`, and `export_type` fixes `h = id`.
* IEEE `f32` numbers from `bevy_inspector_egui`'s `NumberOptions<f32>` are
  modelled as `ℚ`: the code only moves them around, it never computes with
  them.
* Panics (`unwrap`, `unreachable!`) are modelled either by an `Option` result
  (`export_types`) or, where the panicking case is provably unreachable, by a
  harmless total default that is documented at the definition.
-/

namespace BevyExport

/-- Boolean lexicographic comparison of character lists by code point.  For
UTF-8 encoded strings this is exactly Rust's byte-wise `Ord` on `String` /
`str` (code-point order and byte order agree on UTF-8), and it agrees with
Lean's `String` order (`strLt_iff_lt` below). -/
def lexLt : List Char → List Char → Bool
  | [], [] => false
  | [], _ :: _ => true
  | _ :: _, [] => false
  | c :: cs, d :: ds =>
    if c.toNat < d.toNat then true
    else if d.toNat < c.toNat then false
    else lexLt cs ds

/-- Rust's `String` `Ord`: strict lexicographic comparison. -/
def strLt (a b : String) : Bool := lexLt a.data b.data

/-- Rust's `String` `Ord`: non-strict comparison, `a <= b ↔ ¬ b < a`. -/
def strLe (a b : String) : Bool := !strLt b a

/-- Does `s` start with the characters of `pre`?  Helper for
`strStartsWith`. -/
def startsWithAux : List Char → List Char → Bool
  | _, [] => true
  | [], _ :: _ => false
  | c :: cs, d :: ds => if c = d then startsWithAux cs ds else false

/-- Rust's `str::starts_with(pre)` (byte prefix = character prefix on valid
UTF-8). -/
def strStartsWith (s pre : String) : Bool := startsWithAux s.data pre.data

/-- JSON values as produced by `serde_json` with the default `BTreeMap`-backed
`Map`: in `obj` the association list is kept strictly sorted by key. -/
inductive Json where
  | null : Json
  | bool : Bool → Json
  | num : ℚ → Json
  | str : String → Json
  | arr : List Json → Json
  | obj : List (String × Json) → Json

/-- Key lookup in an object's association list (first match wins; the lists we
build have unique keys). -/
def lookupKey : List (String × Json) → String → Option Json
  | [], _ => none
  | (k, v) :: rest, key => if key = k then some v else lookupKey rest key

/-- Model of `serde_json::Value::get`: key lookup on objects, `None` on any other
value. -/
def Json.get : Json → String → Option Json
  | .obj kvs, key => lookupKey kvs key
  | _, _ => none

/-- Model of `serde_json::Value::as_str`. -/
def Json.asStr : Json → Option String
  | .str s => some s
  | _ => none

/-- Insertion into a `BTreeMap`-backed object: keeps the keys strictly sorted
and replaces an existing binding for the same key. -/
def insertKey : List (String × Json) → String → Json → List (String × Json)
  | [], key, v => [(key, v)]
  | (k, w) :: rest, key, v =>
    if strLt key k then (key, v) :: (k, w) :: rest
    else if key = k then (key, v) :: rest
    else (k, w) :: insertKey rest key v

/-- Building a `serde_json::Map` (a `BTreeMap`) from a key/value sequence:
entries are inserted left to right, later entries overwrite earlier ones. -/
def buildMap (l : List (String × Json)) : List (String × Json) :=
  l.foldl (fun acc p => insertKey acc p.1 p.2) []

/-- The object the `json!` macro builds from the given key/value sequence. -/
def mkObj (l : List (String × Json)) : Json := .obj (buildMap l)

/-- Model of `value.as_object_mut().unwrap().insert(k, v)`.  Total model: on a
non-object — a case the source would panic on and which is unreachable at
every call site — the value is returned unchanged. -/
def Json.insertTop : Json → String → Json → Json
  | .obj kvs, k, v => .obj (insertKey kvs k v)
  | j, _, _ => j

/-- One reflected field (`bevy_reflect::NamedField` / `UnnamedField`): the
code reads only `name()` and `type_path()`; for unnamed fields `name` is
unused. -/
structure Field where
  name : String
  type_path : String
deriving DecidableEq, Repr

/-- Model of `bevy_reflect::VariantInfo`. -/
inductive VariantInfo where
  | unit : String → VariantInfo
  | tuple : String → List Field → VariantInfo
  | struct : String → List Field → VariantInfo
deriving DecidableEq, Repr

/-- The variant's name. -/
def VariantInfo.name : VariantInfo → String
  | .unit n => n
  | .tuple n _ => n
  | .struct n _ => n

/-- Model of `matches!(variant, VariantInfo::Unit(_))`. -/
def VariantInfo.isUnit : VariantInfo → Bool
  | .unit _ => true
  | _ => false

/-- Model of `bevy_reflect::TypeInfo`, restricted to the data the exporter reads.
Each constructor carries the type's own fully-qualified type path first.
For `list`/`array` the second component is the item type path and for `map`
the second and third are the key and value type paths; note that in
`bevy_reflect`, `ListInfo::type_path`, `ArrayInfo::type_path` and
`MapInfo::type_path` all return the *container's own* type path (the item
and value paths are only available via `item_type_path_table` /
`value_type_path_table`, which the source never calls). -/
inductive TypeInfo where
  | struct : String → List Field → TypeInfo
  | enum : String → List VariantInfo → TypeInfo
  | tupleStruct : String → List Field → TypeInfo
  | list : String → String → TypeInfo
  | array : String → String → TypeInfo
  | map : String → String → String → TypeInfo
  | tuple : String → List Field → TypeInfo
  | value : String → TypeInfo
deriving DecidableEq, Repr

/-- Model of `TypeInfo::type_path` — the type's own fully-qualified path. -/
def TypeInfo.type_path : TypeInfo → String
  | .struct tp _ => tp
  | .enum tp _ => tp
  | .tupleStruct tp _ => tp
  | .list tp _ => tp
  | .array tp _ => tp
  | .map tp _ _ => tp
  | .tuple tp _ => tp
  | .value tp => tp

/-- Model of `bevy_inspector_egui::inspector_options::Target`: the key of the
per-type inspector-options table.  In the library's semantics
`variantField v f` addresses the field at position `f` inside the variant at
position `v` of an enum, and `field f` addresses the field at position `f`
of a struct/tuple. -/
inductive Target where
  | field : Nat → Target
  | variantField : Nat → Nat → Target
deriving DecidableEq, Repr

/-- Model of `bevy_reflect::TypeRegistration`, restricted to what the exporter reads:
the type info, whether `reg.data::<ReflectComponent>()` /
`reg.data::<ReflectResource>()` is `Some`, and the
`ReflectInspectorOptions` table of `NumberOptions<f32>` entries keyed by
`Target` (the `support-inspector` feature's data; an empty list models a type
with no options, as when the feature is off). -/
structure TypeRegistration where
  type_info : TypeInfo
  reflect_component : Bool
  reflect_resource : Bool
  number_options : List (Target × (Option ℚ × Option ℚ))
deriving DecidableEq, Repr

/-- Lookup in the inspector-options table (`InspectorOptions::get`). -/
def lookupTarget : List (Target × (Option ℚ × Option ℚ)) → Target →
    Option (Option ℚ × Option ℚ)
  | [], _ => none
  | (t, b) :: rest, tgt => if tgt = t then some b else lookupTarget rest tgt

/-- Model of `get_min_max` (the `support-inspector` version): looks the registration's
`ReflectInspectorOptions` up at `Target::VariantField { variant_index,
field_index }` when `variant_index` is `Some`, else at
`Target::Field(field_index)`, and returns the `NumberOptions` pair
`(min, max)`. -/
def get_min_max (reg : TypeRegistration) (field_index : Nat)
    (variant_index : Option Nat) : Option (Option ℚ × Option ℚ) :=
  lookupTarget reg.number_options
    (match variant_index with
     | some variant_index => .variantField variant_index field_index
     | none => .field field_index)

/-- Model of `add_min_max`: when the lookup yields nothing the value is returned
unchanged; otherwise `minimum` / `maximum` are inserted exactly when the
corresponding component is `Some`. -/
def add_min_max (val : Json) (reg : TypeRegistration) (field_index : Nat)
    (variant_index : Option Nat) : Json :=
  match get_min_max reg field_index variant_index with
  | none => val
  | some (min, max) =>
    let val1 := match min with
      | some m => val.insertTop "minimum" (.num m)
      | none => val
    match max with
      | some m => val1.insertTop "maximum" (.num m)
      | none => val1

/-- The property entry `(field.name(), add_min_max(json!({"type": ...}), reg,
idx, None))` for one struct field (`p.1` is the field's position from
`enumerate()`). -/
def struct_prop (reg : TypeRegistration) (p : Nat × Field) : String × Json :=
  (p.2.name, add_min_max (mkObj [("type", .str p.2.type_path)]) reg p.1 none)

/-- One `prefixItems` entry for a tuple-struct / tuple field. -/
def tuple_item (reg : TypeRegistration) (p : Nat × Field) : Json :=
  add_min_max (mkObj [("type", .str p.2.type_path)]) reg p.1 none

/-- The property entry for one struct-variant field.  `field_idx` is the
enclosing variant's position in the enum (the source's `field_idx` binder
from the outer `enumerate()`), and `r.1` is the field's position within the
variant (the source's `variant_idx` binder), passed as
`add_min_max(..., reg, field_idx, Some(variant_idx))`. -/
def variant_field_prop (reg : TypeRegistration) (field_idx : Nat)
    (r : Nat × Field) : String × Json :=
  (r.2.name,
   add_min_max (mkObj [("type", .str r.2.type_path), ("name", .str r.2.name)])
     reg field_idx (some r.1))

/-- One `prefixItems` entry for a tuple-variant field; index passing as in
`variant_field_prop`. -/
def variant_tuple_item (reg : TypeRegistration) (field_idx : Nat)
    (r : Nat × Field) : Json :=
  add_min_max (mkObj [("type", .str r.2.type_path)]) reg field_idx (some r.1)

/-- The sub-schema of one variant of a mixed enum (`q.1` is the variant's
position, `tp` the enclosing enum's type path).  `h` is the `HashMap`
iteration-order function for the struct-variant `properties` collection. -/
def variant_schema_h (h : List (String × Json) → List (String × Json))
    (reg : TypeRegistration) (tp : String) (q : Nat × VariantInfo) : Json :=
  match q.2 with
  | .struct _ v =>
    mkObj [("type", .str "object"),
           ("name", .str tp),
           ("properties", mkObj (h (v.enum.map (variant_field_prop reg q.1)))),
           ("additionalProperties", .bool false),
           ("required", .arr ((v.filter (fun field =>
               strStartsWith field.type_path "core::option::Option")).map
               (fun field => .str field.name)))]
  | .tuple _ v =>
    mkObj [("type", .str "array"),
           ("prefixItems", .arr (v.enum.map (variant_tuple_item reg q.1))),
           ("items", .bool false)]
  | .unit n => mkObj [("const", .str n)]

/-- The `let mut schema = match t { ... }` expression of `export_type`,
with the two `collect::<HashMap<_, _>>()` sites parameterised by the
`HashMap` iteration-order function `h` (the `HashMap`'s contents are iterated
in an unspecified order before landing in the `BTreeMap`-backed `Value`).
In the all-unit `enum` branch the source's `unreachable!` arm is modelled by
`Json.null` (it is unreachable because every variant is a unit variant). -/
def schema_h (h : List (String × Json) → List (String × Json))
    (reg : TypeRegistration) : Json :=
  match reg.type_info with
  | .struct tp fields =>
    mkObj [("type", .str "object"),
           ("name", .str tp),
           ("properties", mkObj (h (fields.enum.map (struct_prop reg)))),
           ("additionalProperties", .bool false),
           ("required", .arr ((fields.filter (fun field =>
               !(strStartsWith field.type_path "core::option::Option"))).map
               (fun field => .str field.name)))]
  | .enum tp variants =>
    if variants.all VariantInfo.isUnit then
      mkObj [("type", .str "string"),
             ("name", .str tp),
             ("enum", .arr (variants.map (fun variant =>
                match variant with
                | .unit n => .str n
                | _ => .null)))]
    else
      mkObj [("type", .str "object"),
             ("name", .str tp),
             ("oneOf", .arr (variants.enum.map (variant_schema_h h reg tp)))]
  | .tupleStruct tp fields =>
    mkObj [("name", .str tp),
           ("type", .str "array"),
           ("prefixItems", .arr (fields.enum.map (tuple_item reg))),
           ("items", .bool false)]
  | .list tp _item =>
    mkObj [("name", .str tp),
           ("type", .str "array"),
           ("items", mkObj [("type", .str tp)])]
  | .array tp _item =>
    mkObj [("name", .str tp),
           ("type", .str "array"),
           ("items", mkObj [("type", .str tp)])]
  | .map tp _key _value =>
    mkObj [("name", .str tp),
           ("type", .str "object"),
           ("additionalProperties", mkObj [("type", .str tp)])]
  | .tuple tp fields =>
    mkObj [("name", .str tp),
           ("type", .str "array"),
           ("prefixItems", .arr (fields.enum.map (tuple_item reg))),
           ("items", .bool false)]
  | .value tp =>
    mkObj [("name", .str tp),
           ("type", .str tp)]

/-- Model of `export_type`, `HashMap`-order parameterised: build the schema for the
type's shape, then insert `isComponent` / `isResource` from the
registration's reflected capabilities. -/
def export_type_h (h : List (String × Json) → List (String × Json))
    (reg : TypeRegistration) : Json :=
  ((schema_h h reg).insertTop "isComponent" (.bool reg.reflect_component)).insertTop
    "isResource" (.bool reg.reflect_resource)

/-- Model of `export_type` (`HashMap` iteration order fixed to the written order;
`export_type_order_irrelevant` below shows the order does not matter). -/
def export_type (reg : TypeRegistration) : Json := export_type_h id reg

/-- The sort key of `export_types`:
`t.get("name").unwrap().as_str().unwrap().to_string()`.  The `getD`
default is never used on the exporter's output (see `nodeName_export_type`). -/
def nodeName (v : Json) : Option String := (v.get "name").bind Json.asStr

/-- Stable insertion of `x` into a sorted list: `x` goes before the first
element it compares `le` to, so elements with equal keys keep their original
relative order — the same result a stable `sort_by_key` produces. -/
def insertSorted (le : Json → Json → Bool) (x : Json) : List Json → List Json
  | [] => [x]
  | y :: ys => if le x y then x :: y :: ys else y :: insertSorted le x ys

/-- Stable insertion sort; on every input it returns what
`Vec::sort_by_key` (a stable sort) returns. -/
def sort_by_key (le : Json → Json → Bool) : List Json → List Json
  | [] => []
  | x :: xs => insertSorted le x (sort_by_key le xs)

/-- The comparison `export_types` sorts by: the `name` string of each node. -/
def nameLe (a b : Json) : Bool :=
  strLe ((nodeName a).getD "") ((nodeName b).getD "")

/-- Model of `export_types`, `HashMap`-order parameterised.  The source panics while
sorting if some node's `name` is missing or not a string; this is modelled by
returning `none` in that case.  On success the result is the document
`{$schema, title, oneOf}` with the schema nodes sorted by `name`. -/
def export_types_h (h : List (String × Json) → List (String × Json))
    (regs : List TypeRegistration) : Option Json :=
  let schemas := regs.map (export_type_h h)
  if schemas.all (fun s => (nodeName s).isSome) then
    some (mkObj
      [("$schema", .str "https://json-schema.org/draft/2020-12/schema"),
       ("title", .str "bevy game schema"),
       ("oneOf", .arr (sort_by_key nameLe schemas))])
  else none

/-- Model of `export_types` with the `HashMap` iteration order fixed. -/
def export_types (regs : List TypeRegistration) : Option Json :=
  export_types_h id regs

/-- Rust's own invariant on reflected shapes: within one struct (or one
struct variant) the field names are distinct.  The source relies on this
when it collects `properties` through a `HashMap` keyed by field name. -/
def wfB (reg : TypeRegistration) : Bool :=
  match reg.type_info with
  | .struct _ fields => decide ((fields.map Field.name).Nodup)
  | .enum _ variants => variants.all (fun v =>
      match v with
      | .struct _ fs => decide ((fs.map Field.name).Nodup)
      | _ => true)
  | _ => true

mutual

/-- A fixed JSON serializer standing in for `serde_json::to_writer_pretty`
(whitespace and the digit rendering of numbers differ from serde's, which is
immaterial: the serializer is a function of the `Json` value, so equal values
give byte-identical output). -/
def Json.render : Json → String
  | .null => "null"
  | .bool b => if b then "true" else "false"
  | .num q => toString q.num ++ "/" ++ toString q.den
  | .str s => "\"" ++ s ++ "\""
  | .arr xs => "[" ++ Json.renderItems xs ++ "]"
  | .obj kvs => "\x7b" ++ Json.renderFields kvs ++ "\x7d"

/-- Render the element list of an array. -/
def Json.renderItems : List Json → String
  | [] => ""
  | [x] => x.render
  | x :: y :: rest => x.render ++ "," ++ Json.renderItems (y :: rest)

/-- Render the key/value list of an object. -/
def Json.renderFields : List (String × Json) → String
  | [] => ""
  | [(k, v)] => "\"" ++ k ++ "\":" ++ v.render
  | (k, v) :: y :: rest => "\"" ++ k ++ "\":" ++ v.render ++ "," ++ Json.renderFields (y :: rest)

end


/-- Demo registration: a component struct with a required string field, a
bounded float field and an optional field. -/
def demoPlayer : TypeRegistration :=
  ⟨.struct "game::Player"
      [⟨"name", "alloc::string::String"⟩, ⟨"health", "f32"⟩,
       ⟨"pet", "core::option::Option<game::Pet>"⟩],
   true, false, [(.field 1, (some 0, some 1))]⟩

/-- Demo registration: `demoPlayer` with both capability flags flipped and nothing else
changed. -/
def demoPlayerFlipped : TypeRegistration :=
  ⟨.struct "game::Player"
      [⟨"name", "alloc::string::String"⟩, ⟨"health", "f32"⟩,
       ⟨"pet", "core::option::Option<game::Pet>"⟩],
   false, true, [(.field 1, (some 0, some 1))]⟩

/-- Demo registration: an all-unit enum. -/
def demoDirection : TypeRegistration :=
  ⟨.enum "game::Direction"
      [.unit "North", .unit "South", .unit "East", .unit "West"],
   false, false, []⟩

/-- Demo registration: a mixed enum with a unit variant and a struct
variant holding a required and an optional field. -/
def demoShape : TypeRegistration :=
  ⟨.enum "game::Shape"
      [.unit "Dot",
       .struct "Rect" [⟨"w", "f32"⟩, ⟨"h", "core::option::Option<f32>"⟩]],
   false, false, []⟩

/-- Demo registration: a `Vec<f32>` list type. -/
def demoVec : TypeRegistration :=
  ⟨.list "alloc::vec::Vec<f32>" "f32", false, false, []⟩

/-- Demo registration: a `HashMap<String, f32>` map type. -/
def demoHashMap : TypeRegistration :=
  ⟨.map "std::collections::HashMap<alloc::string::String, f32>"
      "alloc::string::String" "f32",
   false, false, []⟩

/-- Demo registration: a mixed enum with two struct variants, where the
inspector-options table declares bounds for the field at position 1 of the
variant at position 0 (`Target.variantField 0 1`, i.e. field `y` of
variant `A`). -/
def demoBoundsEnum : TypeRegistration :=
  ⟨.enum "game::E"
      [.struct "A" [⟨"x", "f32"⟩, ⟨"y", "f32"⟩],
       .struct "B" [⟨"z", "f32"⟩]],
   false, false, [(.variantField 0 1, (some 0, some 1))]⟩

/-! Lemmas: object lookup and insertion. -/

theorem lookupKey_insertKey (l : List (String × Json)) (k key : String) (v : Json) :
    lookupKey (insertKey l k v) key = if key = k then some v else lookupKey l key := by
  induction l with
  | nil => simp [insertKey, lookupKey]
  | cons p rest ih =>
    obtain ⟨k1, w⟩ := p
    unfold insertKey
    split
    · simp only [lookupKey]
    · split
      · next heq =>
        subst heq
        by_cases hk : key = k <;> simp [lookupKey, hk]
      · next hlt hne =>
        by_cases hk : key = k1
        · subst hk
          have : key ≠ k := fun h => hne h.symm
          simp [lookupKey, this]
        · simp [lookupKey, hk, ih]

theorem Json.get_insertTop_ne (j : Json) (k key : String) (v : Json) (h : key ≠ k) :
    (j.insertTop k v).get key = j.get key := by
  cases j <;> simp [Json.insertTop, Json.get, lookupKey_insertKey, h]

theorem Json.get_insertTop_self (kvs : List (String × Json)) (k : String) (v : Json) :
    ((Json.obj kvs).insertTop k v).get k = some v := by
  simp [Json.insertTop, Json.get, lookupKey_insertKey]

theorem mem_insertKey {p : String × Json} {l : List (String × Json)} {k : String}
    {v : Json} (h : p ∈ insertKey l k v) : p = (k, v) ∨ p ∈ l := by
  induction l with
  | nil => simpa [insertKey] using h
  | cons q rest ih =>
    unfold insertKey at h
    split at h
    · simpa using h
    · split at h
      · next heq =>
        subst heq
        rcases List.mem_cons.mp h with h1 | h1
        · exact Or.inl h1
        · exact Or.inr (List.mem_cons_of_mem _ h1)
      · rcases List.mem_cons.mp h with h1 | h1
        · exact Or.inr (h1 ▸ List.mem_cons_self _ _)
        · rcases ih h1 with h2 | h2
          · exact Or.inl h2
          · exact Or.inr (List.mem_cons_of_mem _ h2)

theorem lookupKey_mem {l : List (String × Json)} {k : String} {v : Json}
    (h : lookupKey l k = some v) : (k, v) ∈ l := by
  induction l with
  | nil => simp [lookupKey] at h
  | cons q rest ih =>
    obtain ⟨k1, w⟩ := q
    unfold lookupKey at h
    split at h
    · next heq =>
      subst heq
      simp only [Option.some.injEq] at h
      subst h
      exact List.mem_cons_self _ _
    · exact List.mem_cons_of_mem _ (ih h)

theorem lookupKey_foldl_isSome (l : List (String × Json)) (acc : List (String × Json))
    (k : String) :
    (lookupKey (l.foldl (fun a p => insertKey a p.1 p.2) acc) k).isSome =
      ((lookupKey acc k).isSome || k ∈ l.map Prod.fst) := by
  induction l generalizing acc with
  | nil => simp
  | cons p rest ih =>
    simp only [List.foldl_cons, ih, lookupKey_insertKey, List.map_cons, List.mem_cons]
    by_cases hk : k = p.1 <;> simp [hk]

theorem lookupKey_buildMap_isSome (l : List (String × Json)) (k : String) :
    (lookupKey (buildMap l) k).isSome = true ↔ k ∈ l.map Prod.fst := by
  have := lookupKey_foldl_isSome l [] k
  simp only [lookupKey, Option.isSome_none, Bool.false_or] at this
  simp [buildMap, this]

theorem lookupKey_foldl_mem {l acc : List (String × Json)} {k : String} {v : Json}
    (h : lookupKey (l.foldl (fun a p => insertKey a p.1 p.2) acc) k = some v) :
    (k, v) ∈ acc ∨ (k, v) ∈ l := by
  induction l generalizing acc with
  | nil => exact Or.inl (lookupKey_mem h)
  | cons p rest ih =>
    simp only [List.foldl_cons] at h
    rcases ih h with h1 | h1
    · rcases mem_insertKey h1 with h2 | h2
      · right
        rw [show ((k, v) : String × Json) = p from h2 ▸ rfl]
        exact List.mem_cons_self _ _
      · exact Or.inl h2
    · exact Or.inr (List.mem_cons_of_mem _ h1)

theorem lookupKey_buildMap_mem {l : List (String × Json)} {k : String} {v : Json}
    (h : lookupKey (buildMap l) k = some v) : (k, v) ∈ l := by
  rcases @lookupKey_foldl_mem l [] k v h with h1 | h1
  · simp at h1
  · exact h1

/-! Lemmas: `add_min_max` only touches `minimum` and `maximum`. -/

theorem add_min_max_get_ne (val : Json) (reg : TypeRegistration) (fi : Nat)
    (vi : Option Nat) (key : String) (h1 : key ≠ "minimum") (h2 : key ≠ "maximum") :
    (add_min_max val reg fi vi).get key = val.get key := by
  unfold add_min_max
  cases get_min_max reg fi vi with
  | none => rfl
  | some p =>
    obtain ⟨mn, mx⟩ := p
    cases mn <;> cases mx <;>
      simp [Json.get_insertTop_ne, h1, h2]


/-! Lemmas: `strLt` / `strLe` agree with the lexicographic `String` order. -/

theorem lexLt_iff (as bs : List Char) :
    lexLt as bs = true ↔ List.Lex (· < ·) as bs := by
  induction as generalizing bs with
  | nil =>
    cases bs with
    | nil =>
      simp only [lexLt, Bool.false_eq_true, false_iff]
      intro h
      cases h
    | cons b bs => simp only [lexLt, true_iff]; exact List.Lex.nil
  | cons c cs ih =>
    cases bs with
    | nil =>
      simp only [lexLt, Bool.false_eq_true, false_iff]
      intro h
      cases h
    | cons d ds =>
      by_cases h1 : c.toNat < d.toNat
      · simp only [lexLt, h1, if_pos, true_iff]
        exact List.Lex.rel h1
      · by_cases h2 : d.toNat < c.toNat
        · simp only [lexLt, h1, h2, if_neg, if_pos, not_false_iff, Bool.false_eq_true,
            false_iff]
          intro h
          cases h with
          | cons h3 => exact absurd h2 (Nat.lt_irrefl _)
          | rel h3 => exact absurd (h3 : c.toNat < d.toNat) h1
        · have hcd : c = d :=
            Char.ext (UInt32.ext (Nat.le_antisymm (Nat.not_lt.mp h2) (Nat.not_lt.mp h1)))
          subst hcd
          simp only [lexLt, h1, if_neg, not_false_iff]
          rw [ih]
          constructor
          · exact fun h => List.Lex.cons h
          · intro h
            cases h with
            | cons h3 => exact h3
            | rel h3 => exact absurd (h3 : c.toNat < c.toNat) (Nat.lt_irrefl _)

theorem strLt_iff_lt (a b : String) : strLt a b = true ↔ a < b := by
  simp only [String.lt_iff_toList_lt, List.lt_iff_lex_lt]
  exact lexLt_iff a.data b.data

theorem strLe_iff_le (a b : String) : strLe a b = true ↔ a ≤ b := by
  rw [strLe, Bool.not_eq_true']
  constructor
  · intro h
    by_contra hc
    rw [not_le] at hc
    rw [← strLt_iff_lt b a] at hc
    rw [h] at hc
    cases hc
  · intro h
    by_contra hc
    rw [Bool.not_eq_false, strLt_iff_lt] at hc
    exact absurd h (not_le.mpr hc)

/-! Lemmas: the stable insertion sort is sorted. -/

theorem mem_insertSorted (le : Json → Json → Bool) (x z : Json) (l : List Json) :
    z ∈ insertSorted le x l ↔ z = x ∨ z ∈ l := by
  induction l with
  | nil => simp [insertSorted]
  | cons y ys ih =>
    by_cases hxy : le x y
    · simp [insertSorted, hxy, List.mem_cons]
    · simp only [insertSorted, hxy, Bool.false_eq_true, if_false, List.mem_cons, ih]
      tauto

theorem pairwise_insertSorted (le : Json → Json → Bool)
    (htot : ∀ a b, le a b = true ∨ le b a = true)
    (htrans : ∀ a b c, le a b = true → le b c = true → le a c = true)
    (x : Json) (l : List Json) (hl : l.Pairwise (fun a b => le a b = true)) :
    (insertSorted le x l).Pairwise (fun a b => le a b = true) := by
  induction l with
  | nil => simp [insertSorted]
  | cons y ys ih =>
    rcases List.pairwise_cons.mp hl with ⟨hy, hys⟩
    by_cases hxy : le x y
    · rw [insertSorted, if_pos hxy]
      refine List.pairwise_cons.mpr ⟨?_, hl⟩
      intro z hz
      rcases List.mem_cons.mp hz with h | h
      · subst h; exact hxy
      · exact htrans x y z hxy (hy z h)
    · rw [insertSorted, if_neg hxy]
      refine List.pairwise_cons.mpr ⟨?_, ih hys⟩
      intro z hz
      rcases (mem_insertSorted le x z ys).mp hz with h | h
      · subst h
        rcases htot z y with h1 | h1
        · exact absurd h1 hxy
        · exact h1
      · exact hy z h

theorem pairwise_sort_by_key (le : Json → Json → Bool)
    (htot : ∀ a b, le a b = true ∨ le b a = true)
    (htrans : ∀ a b c, le a b = true → le b c = true → le a c = true)
    (l : List Json) :
    (sort_by_key le l).Pairwise (fun a b => le a b = true) := by
  induction l with
  | nil => simp [sort_by_key]
  | cons x xs ih => exact pairwise_insertSorted le htot htrans x _ ih

theorem nameLe_total (a b : Json) : nameLe a b = true ∨ nameLe b a = true := by
  rw [nameLe, nameLe, strLe_iff_le, strLe_iff_le]
  exact le_total _ _

theorem nameLe_trans (a b c : Json) (h1 : nameLe a b = true) (h2 : nameLe b c = true) :
    nameLe a c = true := by
  rw [nameLe, strLe_iff_le] at h1 h2 ⊢
  exact le_trans h1 h2


/-! Lemmas: a `BTreeMap` built from a key/value list does not depend on the
order the list is iterated in, as long as the keys are distinct. -/

theorem strLt_asymm {a b : String} (h1 : strLt a b = true) (h2 : strLt b a = true) :
    False := by
  rw [strLt_iff_lt] at h1 h2
  exact absurd h2 (lt_asymm h1)

theorem strLt_of_not_of_ne {a b : String} (h1 : ¬ strLt a b = true) (h2 : a ≠ b) :
    strLt b a = true := by
  rw [strLt_iff_lt] at h1 ⊢
  rcases lt_trichotomy a b with h | h | h
  · exact absurd h h1
  · exact absurd h h2
  · exact h

theorem strLt_trans {a b c : String} (h1 : strLt a b = true) (h2 : strLt b c = true) :
    strLt a c = true := by
  rw [strLt_iff_lt] at h1 h2 ⊢
  exact lt_trans h1 h2

theorem insertKey_keys_sorted (l : List (String × Json)) (k : String) (v : Json)
    (hl : l.Pairwise (fun p q => strLt p.1 q.1 = true)) :
    (insertKey l k v).Pairwise (fun p q => strLt p.1 q.1 = true) := by
  induction l with
  | nil => simp [insertKey]
  | cons p rest ih =>
    obtain ⟨k1, w⟩ := p
    rcases List.pairwise_cons.mp hl with ⟨h1, hrest⟩
    unfold insertKey
    split
    · next hlt =>
      refine List.pairwise_cons.mpr ⟨?_, hl⟩
      intro q hq
      rcases List.mem_cons.mp hq with h | h
      · subst h; exact hlt
      · exact strLt_trans hlt (h1 q h)
    · split
      · next heq =>
        subst heq
        exact List.pairwise_cons.mpr ⟨h1, hrest⟩
      · next hlt hne =>
        refine List.pairwise_cons.mpr ⟨?_, ih hrest⟩
        intro q hq
        rcases mem_insertKey hq with h | h
        · subst h
          exact strLt_of_not_of_ne hlt hne
        · exact h1 q h

theorem foldl_insertKey_sorted (l acc : List (String × Json))
    (hacc : acc.Pairwise (fun p q => strLt p.1 q.1 = true)) :
    (l.foldl (fun a p => insertKey a p.1 p.2) acc).Pairwise
      (fun p q => strLt p.1 q.1 = true) := by
  induction l generalizing acc with
  | nil => exact hacc
  | cons p rest ih => exact ih _ (insertKey_keys_sorted _ _ _ hacc)

theorem buildMap_keys_sorted (l : List (String × Json)) :
    (buildMap l).Pairwise (fun p q => strLt p.1 q.1 = true) :=
  foldl_insertKey_sorted l [] (List.Pairwise.nil)

theorem insertKey_perm (l : List (String × Json)) (k : String) (v : Json)
    (hk : k ∉ l.map Prod.fst) : (insertKey l k v).Perm ((k, v) :: l) := by
  induction l with
  | nil => simp [insertKey]
  | cons p rest ih =>
    obtain ⟨k1, w⟩ := p
    simp only [List.map_cons, List.mem_cons] at hk
    push_neg at hk
    unfold insertKey
    split
    · exact List.Perm.refl _
    · split
      · next heq => exact absurd heq hk.1
      · refine List.Perm.trans (List.Perm.cons _ (ih hk.2)) ?_
        exact List.Perm.swap _ _ _

theorem foldl_insertKey_perm (l : List (String × Json)) :
    ∀ acc : List (String × Json), (((acc ++ l).map Prod.fst).Nodup) →
      (l.foldl (fun a p => insertKey a p.1 p.2) acc).Perm (acc ++ l) := by
  induction l with
  | nil => intro acc h; simp
  | cons p rest ih =>
    intro acc h
    simp only [List.foldl_cons]
    have hp : p.1 ∉ acc.map Prod.fst := by
      intro hmem
      rw [List.map_append] at h
      rcases List.nodup_append.mp h with ⟨-, -, hdisj⟩
      exact hdisj hmem (by simp)
    have hins : (insertKey acc p.1 p.2).Perm (p :: acc) := by
      have := insertKey_perm acc p.1 p.2 hp
      simpa using this
    have hperm2 : ((p :: acc) ++ rest).Perm (acc ++ p :: rest) :=
      (@List.perm_middle _ p acc rest).symm
    have hkeys : (((insertKey acc p.1 p.2) ++ rest).map Prod.fst).Nodup := by
      have hperm : ((insertKey acc p.1 p.2) ++ rest).Perm ((p :: acc) ++ rest) :=
        hins.append_right rest
      exact ((hperm.trans hperm2).map Prod.fst).nodup_iff.mpr h
    have := ih (insertKey acc p.1 p.2) hkeys
    refine this.trans ?_
    exact (hins.append_right rest).trans hperm2.symm.symm

theorem buildMap_perm (l : List (String × Json)) (h : (l.map Prod.fst).Nodup) :
    (buildMap l).Perm l := by
  have := foldl_insertKey_perm l [] (by simpa using h)
  simpa [buildMap] using this

theorem buildMap_eq_of_perm (l1 l2 : List (String × Json)) (hp : l1.Perm l2)
    (h2 : (l2.map Prod.fst).Nodup) : buildMap l1 = buildMap l2 := by
  have h : (l1.map Prod.fst).Nodup := ((hp.map Prod.fst).nodup_iff).mpr h2
  have hperm : (buildMap l1).Perm (buildMap l2) :=
    ((buildMap_perm l1 h).trans hp).trans (buildMap_perm l2 h2).symm
  haveI : IsAntisymm (String × Json) (fun p q => strLt p.1 q.1 = true) :=
    ⟨fun a b hab hba => (strLt_asymm hab hba).elim⟩
  have s1 : List.Sorted (fun p q : String × Json => strLt p.1 q.1 = true) (buildMap l1) :=
    buildMap_keys_sorted l1
  have s2 : List.Sorted (fun p q : String × Json => strLt p.1 q.1 = true) (buildMap l2) :=
    buildMap_keys_sorted l2
  exact List.eq_of_perm_of_sorted hperm s1 s2

theorem mkObj_eq_of_perm (l1 l2 : List (String × Json)) (hp : l1.Perm l2)
    (h2 : (l2.map Prod.fst).Nodup) : mkObj l1 = mkObj l2 :=
  congrArg Json.obj (buildMap_eq_of_perm l1 l2 hp h2)


/-! Lemmas: the `HashMap` iteration order does not influence the export. -/

theorem mem_of_mem_enum {α : Type} {l : List α} {q : Nat × α} (h : q ∈ l.enum) :
    q.2 ∈ l := by
  obtain ⟨i, x⟩ := q
  obtain ⟨h1, h2, h3⟩ := List.mem_enumFrom h
  rw [h3]
  exact List.getElem_mem _

theorem keys_of_props (fields : List Field) (g : Nat × Field → String × Json)
    (hg : ∀ p, (g p).1 = p.2.name) :
    ((fields.enum.map g).map Prod.fst) = fields.map Field.name := by
  rw [List.map_map]
  have h1 : (Prod.fst ∘ g) = (Field.name ∘ Prod.snd) := funext fun p => hg p
  rw [h1, ← List.map_map, List.enum_map_snd]

theorem variant_schema_h_eq_id (h : List (String × Json) → List (String × Json))
    (hperm : ∀ l : List (String × Json), (h l).Perm l)
    (reg : TypeRegistration) (tp : String) (q : Nat × VariantInfo)
    (hnd : (match q.2 with
        | VariantInfo.struct _ fs => decide ((fs.map Field.name).Nodup)
        | _ => true) = true) :
    variant_schema_h h reg tp q = variant_schema_h id reg tp q := by
  obtain ⟨i, v⟩ := q
  cases v with
  | struct vn fs =>
    have hnodup : (fs.map Field.name).Nodup := by simpa using hnd
    simp only [variant_schema_h]
    rw [mkObj_eq_of_perm (h (fs.enum.map (variant_field_prop reg i)))
      (fs.enum.map (variant_field_prop reg i)) (hperm _)
      (by rw [keys_of_props fs (variant_field_prop reg i) (fun p => rfl)]; exact hnodup)]
    rfl
  | tuple vn fs => rfl
  | unit n => rfl

theorem schema_h_eq_id (h : List (String × Json) → List (String × Json))
    (hperm : ∀ l : List (String × Json), (h l).Perm l)
    (reg : TypeRegistration) (hwf : wfB reg = true) :
    schema_h h reg = schema_h id reg := by
  obtain ⟨ti, c, r, o⟩ := reg
  cases ti with
  | struct tp fields =>
    have hnd : (fields.map Field.name).Nodup := by
      simpa [wfB] using hwf
    simp only [schema_h]
    rw [mkObj_eq_of_perm
      (h (fields.enum.map (struct_prop ⟨.struct tp fields, c, r, o⟩)))
      (fields.enum.map (struct_prop ⟨.struct tp fields, c, r, o⟩)) (hperm _)
      (by
        rw [keys_of_props fields (struct_prop ⟨.struct tp fields, c, r, o⟩)
          (fun p => rfl)]
        exact hnd)]
    rfl
  | enum tp variants =>
    have hall : ∀ v ∈ variants, (match v with
        | VariantInfo.struct _ fs => decide ((fs.map Field.name).Nodup)
        | _ => true) = true := by
      rw [wfB] at hwf
      simpa using List.all_eq_true.mp hwf
    cases hsv : variants.all VariantInfo.isUnit with
    | true => simp [schema_h, hsv]
    | false =>
      simp only [schema_h, hsv, Bool.false_eq_true, if_false]
      rw [List.map_congr_left (fun q hq =>
        variant_schema_h_eq_id h hperm ⟨.enum tp variants, c, r, o⟩ tp q
          (hall q.2 (mem_of_mem_enum hq)))]
  | tupleStruct tp fields => rfl
  | list tp item => rfl
  | array tp item => rfl
  | map tp k v => rfl
  | tuple tp fields => rfl
  | value tp => rfl

theorem export_type_h_eq_id (h : List (String × Json) → List (String × Json))
    (hperm : ∀ l : List (String × Json), (h l).Perm l)
    (reg : TypeRegistration) (hwf : wfB reg = true) :
    export_type_h h reg = export_type_h id reg := by
  rw [export_type_h, export_type_h, schema_h_eq_id h hperm reg hwf]

theorem export_types_h_eq_id (h : List (String × Json) → List (String × Json))
    (hperm : ∀ l : List (String × Json), (h l).Perm l)
    (regs : List TypeRegistration) (hwf : ∀ reg ∈ regs, wfB reg = true) :
    export_types_h h regs = export_types regs := by
  rw [export_types, export_types_h, export_types_h]
  rw [List.map_congr_left (fun reg hreg =>
    export_type_h_eq_id h hperm reg (hwf reg hreg))]


/-! Lemmas: every schema node is an object carrying its `name` and the two
capability flags. -/

theorem schema_h_is_obj (h : List (String × Json) → List (String × Json))
    (reg : TypeRegistration) : ∃ kvs, schema_h h reg = Json.obj kvs := by
  obtain ⟨ti, c, r, o⟩ := reg
  cases ti
  case enum tp variants =>
    cases hsv : variants.all VariantInfo.isUnit with
    | true => exact ⟨_, by simp only [schema_h, hsv, if_true]; rfl⟩
    | false => exact ⟨_, by simp only [schema_h, hsv, Bool.false_eq_true, if_false]; rfl⟩
  all_goals exact ⟨_, rfl⟩

theorem get_export_type_h_ne (h : List (String × Json) → List (String × Json))
    (reg : TypeRegistration) (key : String) (h1 : key ≠ "isComponent")
    (h2 : key ≠ "isResource") :
    (export_type_h h reg).get key = (schema_h h reg).get key := by
  rw [export_type_h, Json.get_insertTop_ne _ _ _ _ h2, Json.get_insertTop_ne _ _ _ _ h1]

theorem get_export_type_h_isComponent (h : List (String × Json) → List (String × Json))
    (reg : TypeRegistration) :
    (export_type_h h reg).get "isComponent" = some (.bool reg.reflect_component) := by
  obtain ⟨kvs, hk⟩ := schema_h_is_obj h reg
  rw [export_type_h, hk, Json.get_insertTop_ne _ _ _ _ (by decide)]
  exact Json.get_insertTop_self _ _ _

theorem get_export_type_h_isResource (h : List (String × Json) → List (String × Json))
    (reg : TypeRegistration) :
    (export_type_h h reg).get "isResource" = some (.bool reg.reflect_resource) := by
  obtain ⟨kvs, hk⟩ := schema_h_is_obj h reg
  rw [export_type_h, hk]
  have : ((Json.obj kvs).insertTop "isComponent" (.bool reg.reflect_component)) =
      Json.obj (insertKey kvs "isComponent" (.bool reg.reflect_component)) := rfl
  rw [this]
  exact Json.get_insertTop_self _ _ _

theorem nodeName_export_type_h (h : List (String × Json) → List (String × Json))
    (reg : TypeRegistration) :
    nodeName (export_type_h h reg) = some reg.type_info.type_path := by
  obtain ⟨ti, c, r, o⟩ := reg
  cases ti
  case enum tp variants =>
    cases hsv : variants.all VariantInfo.isUnit with
    | true =>
      simp only [nodeName, export_type_h, schema_h, hsv, if_true]
      rfl
    | false =>
      simp only [nodeName, export_type_h, schema_h, hsv, Bool.false_eq_true, if_false]
      rfl
  all_goals rfl


/-! Lemmas: the capability flags do not occur in the shape schema. -/

theorem add_min_max_congr (v : Json) (r1 r2 : TypeRegistration) (fi : Nat)
    (vi : Option Nat) (h : r1.number_options = r2.number_options) :
    add_min_max v r1 fi vi = add_min_max v r2 fi vi := by
  unfold add_min_max get_min_max
  rw [h]

theorem struct_prop_congr (r1 r2 : TypeRegistration)
    (h : r1.number_options = r2.number_options) :
    struct_prop r1 = struct_prop r2 :=
  funext fun p => by rw [struct_prop, struct_prop, add_min_max_congr _ _ _ _ _ h]

theorem tuple_item_congr (r1 r2 : TypeRegistration)
    (h : r1.number_options = r2.number_options) :
    tuple_item r1 = tuple_item r2 :=
  funext fun p => by rw [tuple_item, tuple_item, add_min_max_congr _ _ _ _ _ h]

theorem variant_field_prop_congr (r1 r2 : TypeRegistration) (i : Nat)
    (h : r1.number_options = r2.number_options) :
    variant_field_prop r1 i = variant_field_prop r2 i :=
  funext fun p => by
    rw [variant_field_prop, variant_field_prop, add_min_max_congr _ _ _ _ _ h]

theorem variant_tuple_item_congr (r1 r2 : TypeRegistration) (i : Nat)
    (h : r1.number_options = r2.number_options) :
    variant_tuple_item r1 i = variant_tuple_item r2 i :=
  funext fun p => by
    rw [variant_tuple_item, variant_tuple_item, add_min_max_congr _ _ _ _ _ h]

theorem variant_schema_h_congr (h0 : List (String × Json) → List (String × Json))
    (r1 r2 : TypeRegistration) (tp : String)
    (h : r1.number_options = r2.number_options) :
    variant_schema_h h0 r1 tp = variant_schema_h h0 r2 tp := by
  funext q
  obtain ⟨i, v⟩ := q
  cases v with
  | struct vn fs =>
    simp only [variant_schema_h]
    rw [variant_field_prop_congr r1 r2 i h]
  | tuple vn fs =>
    simp only [variant_schema_h]
    rw [variant_tuple_item_congr r1 r2 i h]
  | unit n => rfl

theorem schema_h_congr_options (h0 : List (String × Json) → List (String × Json))
    (r1 r2 : TypeRegistration) (hti : r1.type_info = r2.type_info)
    (hopt : r1.number_options = r2.number_options) :
    schema_h h0 r1 = schema_h h0 r2 := by
  obtain ⟨t1, c1, s1, o1⟩ := r1
  obtain ⟨t2, c2, s2, o2⟩ := r2
  have ht : t1 = t2 := hti
  have ho : o1 = o2 := hopt
  subst ht
  subst ho
  cases t1 with
  | struct tp fields =>
    simp only [schema_h]
    rw [struct_prop_congr ⟨.struct tp fields, c1, s1, o1⟩
      ⟨.struct tp fields, c2, s2, o1⟩ rfl]
  | enum tp variants =>
    simp only [schema_h]
    rw [variant_schema_h_congr h0 ⟨.enum tp variants, c1, s1, o1⟩
      ⟨.enum tp variants, c2, s2, o1⟩ tp rfl]
  | tupleStruct tp fields =>
    simp only [schema_h]
    rw [tuple_item_congr ⟨.tupleStruct tp fields, c1, s1, o1⟩
      ⟨.tupleStruct tp fields, c2, s2, o1⟩ rfl]
  | tuple tp fields =>
    simp only [schema_h]
    rw [tuple_item_congr ⟨.tuple tp fields, c1, s1, o1⟩
      ⟨.tuple tp fields, c2, s2, o1⟩ rfl]
  | list tp item => rfl
  | array tp item => rfl
  | map tp kt vt => rfl
  | value tp => rfl

/-! Claims. -/

/-- Claim C1: for every struct TypeDescriptor the emitted node's `required`
array contains exactly the names of the fields whose `type_path` does not
start with `"core::option::Option"`, in field order; every field still
appears in `properties`, and (the names being distinct) every
optional-marked field is absent from `required`. -/
theorem struct_required_rule (reg : TypeRegistration) (tp : String)
    (fields : List Field) (hti : reg.type_info = .struct tp fields)
    (hnd : (fields.map Field.name).Nodup) :
    ((export_type reg).get "required" =
        some (.arr ((fields.filter (fun f =>
          !(strStartsWith f.type_path "core::option::Option"))).map
          (fun f => .str f.name)))) ∧
    (∀ f ∈ fields, (((export_type reg).get "properties").bind
        (fun p => p.get f.name)).isSome = true) ∧
    (∀ f ∈ fields, strStartsWith f.type_path "core::option::Option" = true →
        f.name ∉ (fields.filter (fun g =>
          !(strStartsWith g.type_path "core::option::Option"))).map Field.name) := by
  obtain ⟨ti, c, r, o⟩ := reg
  have hti2 : ti = .struct tp fields := hti
  subst hti2
  refine ⟨rfl, ?_, ?_⟩
  · intro f hf
    have hget : (export_type ⟨.struct tp fields, c, r, o⟩).get "properties" =
        some (mkObj (fields.enum.map
          (struct_prop ⟨.struct tp fields, c, r, o⟩))) := rfl
    rw [hget]
    show ((mkObj (fields.enum.map
        (struct_prop ⟨.struct tp fields, c, r, o⟩))).get f.name).isSome = true
    show (lookupKey (buildMap (fields.enum.map
        (struct_prop ⟨.struct tp fields, c, r, o⟩))) f.name).isSome = true
    rw [lookupKey_buildMap_isSome,
      keys_of_props fields (struct_prop ⟨.struct tp fields, c, r, o⟩) (fun p => rfl)]
    exact List.mem_map_of_mem _ hf
  · intro f hf hopt hmem
    rcases List.mem_map.mp hmem with ⟨g, hg, hname⟩
    rcases List.mem_filter.mp hg with ⟨hgmem, hgpred⟩
    have hgf : g = f := List.inj_on_of_nodup_map hnd hgmem hf hname
    subst hgf
    rw [hopt] at hgpred
    simp at hgpred

/-- Witness for C1 at `demoPlayer`: the required array is exactly
`["name", "health"]`, all three fields appear in `properties`, and the
optional `pet` field is not in `required`. -/
theorem struct_required_rule_witness :
    ((export_type demoPlayer).get "required" =
        some (.arr (([⟨"name", "alloc::string::String"⟩, ⟨"health", "f32"⟩,
          ⟨"pet", "core::option::Option<game::Pet>"⟩] : List Field).filter (fun f =>
          !(strStartsWith f.type_path "core::option::Option")) |>.map
          (fun f => .str f.name)))) ∧
    (∀ f ∈ ([⟨"name", "alloc::string::String"⟩, ⟨"health", "f32"⟩,
        ⟨"pet", "core::option::Option<game::Pet>"⟩] : List Field),
      (((export_type demoPlayer).get "properties").bind
        (fun p => p.get f.name)).isSome = true) ∧
    (∀ f ∈ ([⟨"name", "alloc::string::String"⟩, ⟨"health", "f32"⟩,
        ⟨"pet", "core::option::Option<game::Pet>"⟩] : List Field),
      strStartsWith f.type_path "core::option::Option" = true →
        f.name ∉ (([⟨"name", "alloc::string::String"⟩, ⟨"health", "f32"⟩,
          ⟨"pet", "core::option::Option<game::Pet>"⟩] : List Field).filter (fun g =>
          !(strStartsWith g.type_path "core::option::Option"))).map Field.name) :=
  struct_required_rule demoPlayer "game::Player"
    [⟨"name", "alloc::string::String"⟩, ⟨"health", "f32"⟩,
     ⟨"pet", "core::option::Option<game::Pet>"⟩] rfl (by decide)


/-- Claim C4: for every enum TypeDescriptor whose variants are all unit
variants, the emitted node is a string enum — `type` is `"string"`, `enum`
lists the variant names in descriptor order — and the node has no `oneOf`
key. -/
theorem unit_enum_string_rule (reg : TypeRegistration) (tp : String)
    (variants : List VariantInfo) (hti : reg.type_info = .enum tp variants)
    (hsimple : variants.all VariantInfo.isUnit = true) :
    ((export_type reg).get "type" = some (.str "string")) ∧
    ((export_type reg).get "enum" =
        some (.arr (variants.map (fun v => .str v.name)))) ∧
    ((export_type reg).get "oneOf" = none) := by
  obtain ⟨ti, c, r, o⟩ := reg
  have hti2 : ti = .enum tp variants := hti
  subst hti2
  have hexp : export_type ⟨.enum tp variants, c, r, o⟩ =
      ((mkObj [("type", Json.str "string"), ("name", Json.str tp),
        ("enum", Json.arr (variants.map (fun variant =>
          match variant with
          | VariantInfo.unit n => Json.str n
          | _ => Json.null)))]).insertTop "isComponent"
            (Json.bool c)).insertTop "isResource" (Json.bool r) := by
    simp only [export_type, export_type_h, schema_h, hsimple, if_true]
  have hmap : variants.map (fun variant =>
      match variant with
      | VariantInfo.unit n => Json.str n
      | _ => Json.null) = variants.map (fun v => Json.str v.name) := by
    refine List.map_congr_left ?_
    intro v hv
    have hu := List.all_eq_true.mp hsimple v hv
    cases v with
    | unit n => rfl
    | tuple n fs => simp [VariantInfo.isUnit] at hu
    | struct n fs => simp [VariantInfo.isUnit] at hu
  refine ⟨?_, ?_, ?_⟩
  · rw [hexp]; rfl
  · rw [hexp]
    calc (((mkObj [("type", Json.str "string"), ("name", Json.str tp),
        ("enum", Json.arr (variants.map (fun variant =>
          match variant with
          | VariantInfo.unit n => Json.str n
          | _ => Json.null)))]).insertTop "isComponent"
            (Json.bool c)).insertTop "isResource" (Json.bool r)).get "enum" =
        some (Json.arr (variants.map (fun variant =>
          match variant with
          | VariantInfo.unit n => Json.str n
          | _ => Json.null))) := rfl
      _ = some (Json.arr (variants.map (fun v => Json.str v.name))) := by rw [hmap]
  · rw [hexp]; rfl

/-- Witness for C4 at `demoDirection`: the node is
`type: "string"`, `enum: ["North","South","East","West"]`, with no
`oneOf`. -/
theorem unit_enum_string_rule_witness :
    ((export_type demoDirection).get "type" = some (.str "string")) ∧
    ((export_type demoDirection).get "enum" =
        some (.arr (([.unit "North", .unit "South", .unit "East",
          .unit "West"] : List VariantInfo).map (fun v => .str v.name)))) ∧
    ((export_type demoDirection).get "oneOf" = none) :=
  unit_enum_string_rule demoDirection "game::Direction"
    [.unit "North", .unit "South", .unit "East", .unit "West"] rfl (by decide)


/-- Claim C2: for every struct variant of a mixed enum, the emitted variant
sub-schema's `required` array contains exactly the names of the fields whose
`type_path` DOES begin with `"core::option::Option"` — the inverse of the
plain-struct rule. -/
theorem struct_variant_required_inverted (reg : TypeRegistration) (tp : String)
    (variants : List VariantInfo) (i : Nat) (vn : String) (vfs : List Field)
    (hti : reg.type_info = .enum tp variants)
    (hmixed : variants.all VariantInfo.isUnit = false)
    (hvar : variants[i]? = some (.struct vn vfs)) :
    ∃ subs sub, ((export_type reg).get "oneOf" = some (.arr subs)) ∧
      subs[i]? = some sub ∧
      sub.get "required" = some (.arr ((vfs.filter (fun f =>
        strStartsWith f.type_path "core::option::Option")).map
        (fun f => .str f.name))) := by
  obtain ⟨ti, c, r, o⟩ := reg
  have hti2 : ti = .enum tp variants := hti
  subst hti2
  have hexp : (export_type ⟨.enum tp variants, c, r, o⟩).get "oneOf" =
      some (.arr (variants.enum.map
        (variant_schema_h id ⟨.enum tp variants, c, r, o⟩ tp))) := by
    simp only [export_type, export_type_h, schema_h, hmixed, Bool.false_eq_true,
      if_false]
    rfl
  refine ⟨_, variant_schema_h id ⟨.enum tp variants, c, r, o⟩ tp
    (i, .struct vn vfs), hexp, ?_, ?_⟩
  · rw [List.getElem?_map, List.getElem?_enum, hvar]
    rfl
  · rfl

/-- Witness for C2 at `demoShape`: the struct variant `Rect` (position 1)
has `required` listing exactly its `Option`-prefixed field `h`. -/
theorem struct_variant_required_inverted_witness :
    ∃ subs sub, ((export_type demoShape).get "oneOf" = some (.arr subs)) ∧
      subs[1]? = some sub ∧
      sub.get "required" = some (.arr ((([⟨"w", "f32"⟩,
        ⟨"h", "core::option::Option<f32>"⟩] : List Field).filter (fun f =>
        strStartsWith f.type_path "core::option::Option")).map
        (fun f => .str f.name))) :=
  struct_variant_required_inverted demoShape "game::Shape"
    [.unit "Dot", .struct "Rect" [⟨"w", "f32"⟩, ⟨"h", "core::option::Option<f32>"⟩]]
    1 "Rect" [⟨"w", "f32"⟩, ⟨"h", "core::option::Option<f32>"⟩]
    rfl (by decide) (by decide)


/-- Claim C10: a struct-variant sub-schema carries a `name` key equal to the
enclosing enum's type path (not the variant's own name), and each of its
field sub-schemas carries a `name` key equal to the field's name; plain
struct field sub-schemas carry no `name` key. -/
theorem struct_variant_extra_name_keys (reg : TypeRegistration) (tp : String)
    (variants : List VariantInfo) (i : Nat) (vn : String) (vfs : List Field)
    (hti : reg.type_info = .enum tp variants)
    (hmixed : variants.all VariantInfo.isUnit = false)
    (hvar : variants[i]? = some (.struct vn vfs))
    (reg2 : TypeRegistration) (tp2 : String) (fields2 : List Field)
    (hti2 : reg2.type_info = .struct tp2 fields2) :
    (∃ subs sub, ((export_type reg).get "oneOf" = some (.arr subs)) ∧
      subs[i]? = some sub ∧
      sub.get "name" = some (.str tp) ∧
      (∀ f ∈ vfs, ∃ w, (sub.get "properties").bind (fun p => p.get f.name) =
          some w ∧ w.get "name" = some (.str f.name))) ∧
    (∀ f ∈ fields2, ∀ w,
      ((export_type reg2).get "properties").bind (fun p => p.get f.name) = some w →
        w.get "name" = none) := by
  constructor
  · obtain ⟨ti, c, r, o⟩ := reg
    have hti3 : ti = .enum tp variants := hti
    subst hti3
    have hexp : (export_type ⟨.enum tp variants, c, r, o⟩).get "oneOf" =
        some (.arr (variants.enum.map
          (variant_schema_h id ⟨.enum tp variants, c, r, o⟩ tp))) := by
      simp only [export_type, export_type_h, schema_h, hmixed, Bool.false_eq_true,
        if_false]
      rfl
    refine ⟨_, variant_schema_h id ⟨.enum tp variants, c, r, o⟩ tp
      (i, .struct vn vfs), hexp, ?_, rfl, ?_⟩
    · rw [List.getElem?_map, List.getElem?_enum, hvar]
      rfl
    · intro f hf
      have hprops : (variant_schema_h id ⟨.enum tp variants, c, r, o⟩ tp
          (i, .struct vn vfs)).get "properties" =
          some (mkObj (vfs.enum.map
            (variant_field_prop ⟨.enum tp variants, c, r, o⟩ i))) := rfl
      rw [hprops]
      have hsome : (lookupKey (buildMap (vfs.enum.map
          (variant_field_prop ⟨.enum tp variants, c, r, o⟩ i))) f.name).isSome =
          true := by
        rw [lookupKey_buildMap_isSome, keys_of_props vfs
          (variant_field_prop ⟨.enum tp variants, c, r, o⟩ i) (fun p => rfl)]
        exact List.mem_map_of_mem _ hf
      obtain ⟨w, hw⟩ := Option.isSome_iff_exists.mp hsome
      refine ⟨w, hw, ?_⟩
      have hmem := lookupKey_buildMap_mem hw
      rcases List.mem_map.mp hmem with ⟨p, hp, heq⟩
      rw [variant_field_prop, Prod.mk.injEq] at heq
      obtain ⟨hname, hval⟩ := heq
      rw [← hval, add_min_max_get_ne _ _ _ _ _ (by decide) (by decide)]
      show some (Json.str p.2.name) = some (Json.str f.name)
      rw [hname]
  · intro f hf w hw
    obtain ⟨ti, c, r, o⟩ := reg2
    have hti3 : ti = .struct tp2 fields2 := hti2
    subst hti3
    have hprops : (export_type ⟨.struct tp2 fields2, c, r, o⟩).get "properties" =
        some (mkObj (fields2.enum.map
          (struct_prop ⟨.struct tp2 fields2, c, r, o⟩))) := rfl
    rw [hprops] at hw
    have hw2 : lookupKey (buildMap (fields2.enum.map
        (struct_prop ⟨.struct tp2 fields2, c, r, o⟩))) f.name = some w := hw
    have hmem := lookupKey_buildMap_mem hw2
    rcases List.mem_map.mp hmem with ⟨p, hp, heq⟩
    rw [struct_prop, Prod.mk.injEq] at heq
    obtain ⟨hname, hval⟩ := heq
    rw [← hval, add_min_max_get_ne _ _ _ _ _ (by decide) (by decide)]
    rfl

/-- Witness for C10 at `demoShape` (variant part) and `demoPlayer` (plain
struct part). -/
theorem struct_variant_extra_name_keys_witness :
    (∃ subs sub, ((export_type demoShape).get "oneOf" = some (.arr subs)) ∧
      subs[1]? = some sub ∧
      sub.get "name" = some (.str "game::Shape") ∧
      (∀ f ∈ ([⟨"w", "f32"⟩, ⟨"h", "core::option::Option<f32>"⟩] : List Field),
        ∃ w, (sub.get "properties").bind (fun p => p.get f.name) = some w ∧
          w.get "name" = some (.str f.name))) ∧
    (∀ f ∈ ([⟨"name", "alloc::string::String"⟩, ⟨"health", "f32"⟩,
        ⟨"pet", "core::option::Option<game::Pet>"⟩] : List Field), ∀ w,
      ((export_type demoPlayer).get "properties").bind (fun p => p.get f.name) =
          some w → w.get "name" = none) :=
  struct_variant_extra_name_keys demoShape "game::Shape"
    [.unit "Dot", .struct "Rect" [⟨"w", "f32"⟩, ⟨"h", "core::option::Option<f32>"⟩]]
    1 "Rect" [⟨"w", "f32"⟩, ⟨"h", "core::option::Option<f32>"⟩]
    rfl (by decide) (by decide)
    demoPlayer "game::Player"
    [⟨"name", "alloc::string::String"⟩, ⟨"health", "f32"⟩,
     ⟨"pet", "core::option::Option<game::Pet>"⟩] rfl


/-- Claim C8: the DocumentAssembler's contract-violation failure is
unreachable — every branch of the node builder emits a top-level `name` key
holding the type-path string, so the sort key lookup in `export_types` never
fails and the export always produces a document. -/
theorem name_key_always_present :
    (∀ reg : TypeRegistration,
      nodeName (export_type reg) = some reg.type_info.type_path) ∧
    (∀ regs : List TypeRegistration, ∃ doc, export_types regs = some doc) := by
  constructor
  · intro reg
    exact nodeName_export_type_h id reg
  · intro regs
    have hall : ((regs.map (export_type_h id)).all
        (fun s => (nodeName s).isSome)) = true := by
      rw [List.all_eq_true]
      intro s hs
      rcases List.mem_map.mp hs with ⟨reg, hreg, heq⟩
      rw [← heq, nodeName_export_type_h]
      rfl
    refine ⟨mkObj
      [("$schema", .str "https://json-schema.org/draft/2020-12/schema"),
       ("title", .str "bevy game schema"),
       ("oneOf", .arr (sort_by_key nameLe (regs.map (export_type_h id))))], ?_⟩
    simp only [export_types, export_types_h]
    rw [hall]
    rfl

/-- Claim C5: in every exported document the `name` fields of the nodes in
the top-level `oneOf` array are non-decreasing in the lexicographic string
order. -/
theorem oneOf_names_sorted (regs : List TypeRegistration) :
    ∃ doc nodes, export_types regs = some doc ∧
      doc.get "oneOf" = some (.arr nodes) ∧
      List.Sorted (· ≤ ·) (nodes.map (fun n => (nodeName n).getD "")) := by
  have hall : ((regs.map (export_type_h id)).all
      (fun s => (nodeName s).isSome)) = true := by
    rw [List.all_eq_true]
    intro s hs
    rcases List.mem_map.mp hs with ⟨reg, hreg, heq⟩
    rw [← heq, nodeName_export_type_h]
    rfl
  refine ⟨mkObj
      [("$schema", .str "https://json-schema.org/draft/2020-12/schema"),
       ("title", .str "bevy game schema"),
       ("oneOf", .arr (sort_by_key nameLe (regs.map (export_type_h id))))],
    sort_by_key nameLe (regs.map (export_type_h id)), ?_, ?_, ?_⟩
  · simp only [export_types, export_types_h]
    rw [hall]
    rfl
  · rfl
  · have hp := pairwise_sort_by_key nameLe nameLe_total nameLe_trans
      (regs.map (export_type_h id))
    have hp2 : (sort_by_key nameLe (regs.map (export_type_h id))).Pairwise
        (fun a b => (nodeName a).getD "" ≤ (nodeName b).getD "") := by
      refine hp.imp ?_
      intro a b hab
      rw [nameLe] at hab
      exact (strLe_iff_le _ _).mp hab
    exact List.pairwise_map.mpr hp2

/-- Claim C9: the `is_component` / `is_resource` capability flags influence
only the `isComponent` / `isResource` keys of the emitted node — for two
registrations equal except in the flags, every other key agrees, and each
flag lands in its key. -/
theorem capability_flags_frame (r1 r2 : TypeRegistration)
    (hti : r1.type_info = r2.type_info)
    (hopt : r1.number_options = r2.number_options)
    (k : String) (h1 : k ≠ "isComponent") (h2 : k ≠ "isResource") :
    ((export_type r1).get k = (export_type r2).get k) ∧
    ((export_type r1).get "isComponent" = some (.bool r1.reflect_component)) ∧
    ((export_type r1).get "isResource" = some (.bool r1.reflect_resource)) := by
  refine ⟨?_, get_export_type_h_isComponent id r1, get_export_type_h_isResource id r1⟩
  rw [export_type, export_type, get_export_type_h_ne id r1 k h1 h2,
    get_export_type_h_ne id r2 k h1 h2, schema_h_congr_options id r1 r2 hti hopt]

/-- Witness for C9: flipping both flags on `demoPlayer` leaves the `type`
key unchanged, and the flags land in `isComponent` / `isResource`. -/
theorem capability_flags_frame_witness :
    ((export_type demoPlayer).get "type" = (export_type demoPlayerFlipped).get "type") ∧
    ((export_type demoPlayer).get "isComponent" = some (.bool true)) ∧
    ((export_type demoPlayer).get "isResource" = some (.bool false)) :=
  capability_flags_frame demoPlayer demoPlayerFlipped rfl rfl "type"
    (by decide) (by decide)


/-- Claim C3, code-bug evidence: for a `Vec<f32>` List descriptor the
emitted `items` is `{type: "alloc::vec::Vec<f32>"}` — the CONTAINER's own
type path (`ListInfo::type_path()`), not the element path `"f32"` the spec
requires — and likewise `additionalProperties` for a Map descriptor. -/
theorem container_items_use_own_type_path :
    ((export_type demoVec).get "items" =
        some (mkObj [("type", .str "alloc::vec::Vec<f32>")])) ∧
    (¬ (export_type demoVec).get "items" =
        some (mkObj [("type", .str "f32")])) ∧
    ((export_type demoHashMap).get "additionalProperties" =
        some (mkObj
          [("type", .str "std::collections::HashMap<alloc::string::String, f32>")])) ∧
    (¬ (export_type demoHashMap).get "additionalProperties" =
        some (mkObj [("type", .str "f32")])) := by
  refine ⟨rfl, ?_, rfl, ?_⟩
  · intro h
    have h4 := congrArg (fun o : Option Json =>
      match o with
      | some j =>
        (match j.get "type" with
         | some (Json.str s) => s
         | _ => "")
      | none => "") h
    exact absurd h4 (by decide)
  · intro h
    have h4 := congrArg (fun o : Option Json =>
      match o with
      | some j =>
        (match j.get "type" with
         | some (Json.str s) => s
         | _ => "")
      | none => "") h
    exact absurd h4 (by decide)

/-- Claim C6, code-bug evidence at `demoBoundsEnum`: the inspector-options
table holds bounds for the field at position 1 of the variant at position 0
(`Target.variantField 0 1`, field `y` of variant `A`), yet the emitted
sub-schema of `y` has no `minimum`/`maximum` — the code queries
`get_min_max` with the variant position in the `field_index` slot and the
field position in the `variant_index` slot, so the entry is found by the
unrelated field `z` at variant position 1, field position 0 instead. -/
theorem variant_bounds_indices_swapped :
    (lookupTarget demoBoundsEnum.number_options (Target.variantField 0 1) =
        some (some 0, some 1)) ∧
    (get_min_max demoBoundsEnum 0 (some 1) = none) ∧
    ∃ subs, ((export_type demoBoundsEnum).get "oneOf" = some (.arr subs)) ∧
      (((subs[0]?).bind (fun sub => sub.get "properties")).bind
          (fun p => p.get "y") =
        some (mkObj [("type", .str "f32"), ("name", .str "y")])) ∧
      (((subs[1]?).bind (fun sub => sub.get "properties")).bind
          (fun p => p.get "z") =
        some (mkObj [("type", .str "f32"), ("name", .str "z"),
          ("minimum", .num 0), ("maximum", .num 1)])) :=
  ⟨rfl, rfl, _, rfl, rfl, rfl⟩

/-- Claim C7: exporting the same registry twice is deterministic — the
unspecified `HashMap` iteration order is the only internal choice, and any
two iteration orders produce the same document and byte-identical rendered
output. -/
theorem export_deterministic
    (h1 h2 : List (String × Json) → List (String × Json))
    (hp1 : ∀ l : List (String × Json), (h1 l).Perm l)
    (hp2 : ∀ l : List (String × Json), (h2 l).Perm l)
    (regs : List TypeRegistration) (hwf : ∀ reg ∈ regs, wfB reg = true) :
    (export_types_h h1 regs = export_types_h h2 regs) ∧
    ((export_types_h h1 regs).map Json.render =
      (export_types_h h2 regs).map Json.render) := by
  have e1 := export_types_h_eq_id h1 hp1 regs hwf
  have e2 := export_types_h_eq_id h2 hp2 regs hwf
  rw [e1, e2]
  exact ⟨rfl, rfl⟩

/-- Witness for C7: reversed `HashMap` iteration order gives the same
document as the written-order one on a two-type registry. -/
theorem export_deterministic_witness :
    (export_types_h (fun l => l.reverse) [demoPlayer, demoDirection] =
        export_types_h id [demoPlayer, demoDirection]) ∧
    ((export_types_h (fun l => l.reverse) [demoPlayer, demoDirection]).map
        Json.render =
      (export_types_h id [demoPlayer, demoDirection]).map Json.render) :=
  export_deterministic (fun l => l.reverse) id
    (fun l => List.reverse_perm l) (fun l => List.Perm.refl l)
    [demoPlayer, demoDirection] (by decide)

end BevyExport
